import Mathlib

/-!
Verification of the BTC-Lens Bitcoin block/transaction analyzer core.

This file gives a shallow embedding, over lists of byte values (`Nat`,
each in `[0, 256)`), of the byte codec, script classifier, warning
generator, undo-file decoder and block-analysis error dispatch of the
repository, and proves the specification claims about them.

Machine integers are modelled as `Nat` with explicit reduction modulo
`2 ^ 64` (respectively `2 ^ 32`) exactly where the Go code computes in
`uint64` (`uint32`); signed 64-bit results go through an explicit
two's-complement reinterpretation (`toInt64`).  Streams are modelled as
the list of bytes from the current read position: a reader consumes a
prefix and returns the value together with the unread tail, and a seek
relative to a record start is a `List.drop` from that record start.
-/

namespace BTCLens

/-- Wrap-around modulus of Go's `uint64` arithmetic. -/
def M64 : Nat := 2 ^ 64

/-- Wrap-around modulus of 32-bit words (used by SHA-256). -/
def M32 : Nat := 2 ^ 32

/-- Reinterpretation of a `uint64` bit pattern as Go's `int64`
(two's complement), as in the final conversion of `DecompressAmount`. -/
def toInt64 (n : Nat) : Int :=
  if n < 2 ^ 63 then (n : Int) else (n : Int) - 2 ^ 64

/-- Model of `io.ReadFull` on a byte stream: read exactly `n` bytes,
returning them with the unread tail, or fail when fewer than `n`
bytes remain (Go reports `io.EOF` / `io.ErrUnexpectedEOF`). -/
def readBytes (l : List Nat) (n : Nat) : Option (List Nat × List Nat) :=
  if n ≤ l.length then some (l.take n, l.drop n) else none

/-- Little-endian byte assembly, as done by `binary.Read(r, binary.LittleEndian, &v)`
after `readBytes` has fetched the fixed-width payload. -/
def leNat (bs : List Nat) : Nat :=
  bs.foldr (fun b acc => b + 256 * acc) 0

/-- Big-endian byte assembly (used for secp256k1 coordinates). -/
def beNat (bs : List Nat) : Nat :=
  bs.foldl (fun acc b => acc * 256 + b) 0

/-- Big-endian rendering of `n` on `k` bytes. -/
def natToBEBytes (k n : Nat) : List Nat :=
  (List.range k).map (fun i => n >>> (8 * (k - 1 - i)) % 256)

/-- Embedding of `utils.ReadCompactSize` (part_002, lines 13-41): one tag
byte; `0xfd`/`0xfe`/`0xff` select a 2/4/8-byte little-endian payload,
any other tag byte is itself the value. -/
def readCompactSize (l : List Nat) : Option (Nat × List Nat) :=
  match readBytes l 1 with
  | none => none
  | some (tag, r) =>
    let b := tag.headD 0
    if b = 0xfd then (readBytes r 2).map (fun p => (leNat p.1, p.2))
    else if b = 0xfe then (readBytes r 4).map (fun p => (leNat p.1, p.2))
    else if b = 0xff then (readBytes r 8).map (fun p => (leNat p.1, p.2))
    else some (b, r)

/-- Embedding of `utils.ReadBitcoinVarInt` (part_002, lines 124-139), the
Bitcoin Core CVarInt decoder used by undo files: the accumulator `n` is a
`uint64`, each byte contributes its low 7 bits, a set top bit means more
bytes follow and increments `n` (the encoding invariant). -/
def readBitcoinVarInt (l : List Nat) (n : Nat) : Option (Nat × List Nat) :=
  match l with
  | [] => none
  | b :: rest =>
    let n1 := (n * 128 % M64) ||| (b &&& 0x7f)
    if b &&& 0x80 = 0 then some (n1, rest)
    else readBitcoinVarInt rest ((n1 + 1) % M64)

/-- One CVarInt accumulator step (`n = (n << 7) | (b & 0x7F)` in `uint64`). -/
def cvarStep (n b : Nat) : Nat :=
  (n * 128 % M64) ||| (b &&& 0x7f)

/-- Value decoded by a full CVarInt byte run: the continuation bytes `pre`
each step the accumulator and add one, the final byte `last` only steps it. -/
def cvarFold (n : Nat) (pre : List Nat) (last : Nat) : Nat :=
  cvarStep (pre.foldl (fun m b => (cvarStep m b + 1) % M64) n) last

/-- Go's `for i := 0; i < e; i++ \x7b n *= 10 \x7d` on a `uint64`:
`k` successive wrap-around multiplications by ten. -/
def mulPow10Wrap (n : Nat) : Nat → Nat
  | 0 => n
  | k + 1 => mulPow10Wrap (n * 10 % M64) k

/-- Embedding of `utils.DecompressAmount` (part_002, lines 150-172),
Bitcoin Core's compressed-amount decoder, in `uint64` arithmetic with the
final `int64` conversion. -/
def decompressAmount (x : Nat) : Int :=
  if x = 0 then 0
  else
    let x1 := x - 1
    let e := x1 % 10
    let x2 := x1 / 10
    let n :=
      if e < 9 then
        let d := x2 % 9 + 1
        mulPow10Wrap ((x2 / 9 * 10 + d) % M64) e
      else
        mulPow10Wrap ((x2 + 1) % M64) 9
    toInt64 n

/-- Pointwise XOR of the data bytes against the key, cycling the key from
byte offset `i` (the loop body of `utils.XORDecode`). -/
def xorBytes (key : List Nat) : List Nat → Nat → List Nat
  | [], _ => []
  | b :: rest, i => (b ^^^ key.getD (i % key.length) 0) :: xorBytes key rest (i + 1)

/-- Embedding of `utils.XORDecode` (part_002, lines 91-111): an empty or
all-zero key leaves the data unchanged, otherwise every byte is XORed with
the key byte at its index modulo the key length. -/
def xorDecode (data key : List Nat) : List Nat :=
  if key.length = 0 then data
  else if key.all (fun b => b = 0) then data
  else xorBytes key data 0

/-- Embedding of `analyzer.ClassifyOutputScript` (part_002, lines 190-240):
the exact byte-template decision chain of the source, in source order. -/
def classifyOutputScript (s : List Nat) : String :=
  if s.length = 0 then "unknown"
  else if s.length = 25 ∧ s.getD 0 0 = 0x76 ∧ s.getD 1 0 = 0xa9 ∧ s.getD 2 0 = 0x14 ∧
      s.getD 23 0 = 0x88 ∧ s.getD 24 0 = 0xac then "p2pkh"
  else if s.length = 23 ∧ s.getD 0 0 = 0xa9 ∧ s.getD 1 0 = 0x14 ∧ s.getD 22 0 = 0x87 then "p2sh"
  else if s.length = 22 ∧ s.getD 0 0 = 0x00 ∧ s.getD 1 0 = 0x14 then "p2wpkh"
  else if s.length = 34 ∧ s.getD 0 0 = 0x00 ∧ s.getD 1 0 = 0x20 then "p2wsh"
  else if s.length = 34 ∧ s.getD 0 0 = 0x51 ∧ s.getD 1 0 = 0x20 then "p2tr"
  else if s.length > 0 ∧ s.getD 0 0 = 0x6a then "op_return"
  else "unknown"

/-- One analyzed output as consumed by `GenerateWarnings`: its script type
string and its value in satoshis. -/
structure OutputRec where
  scriptType : String
  valueSats : Int
deriving DecidableEq

/-- Embedding of `analyzer.GenerateWarnings` (part_002, lines 716-751).
Each loop-with-break of the source appends its code at most once, so it is
an `if any output matches` append; the fee rate is a `float64` in Go and is
modelled as a rational, which has the same order on the finite values the
analyzer produces. -/
def generateWarnings (feeSats : Int) (feeRate : ℚ) (rbfSignaling : Bool)
    (outputs : List OutputRec) : List String :=
  (if feeSats > 1000000 ∨ feeRate > 200 then ["HIGH_FEE"] else []) ++
  (if outputs.any (fun o => !(o.scriptType == "op_return") && decide (o.valueSats < 546))
    then ["DUST_OUTPUT"] else []) ++
  (if outputs.any (fun o => o.scriptType == "unknown") then ["UNKNOWN_OUTPUT_SCRIPT"] else []) ++
  (if rbfSignaling then ["RBF_SIGNALING"] else [])

/-- Right rotation of a 32-bit word. -/
def rotr32 (x n : Nat) : Nat :=
  ((x >>> n) ||| (x <<< (32 - n))) % M32

/-- SHA-256 big sigma 0. -/
def bsig0 (x : Nat) : Nat :=
  rotr32 x 2 ^^^ rotr32 x 13 ^^^ rotr32 x 22

/-- SHA-256 big sigma 1. -/
def bsig1 (x : Nat) : Nat :=
  rotr32 x 6 ^^^ rotr32 x 11 ^^^ rotr32 x 25

/-- SHA-256 small sigma 0. -/
def ssig0 (x : Nat) : Nat :=
  rotr32 x 7 ^^^ rotr32 x 18 ^^^ (x >>> 3)

/-- SHA-256 small sigma 1. -/
def ssig1 (x : Nat) : Nat :=
  rotr32 x 17 ^^^ rotr32 x 19 ^^^ (x >>> 10)

/-- SHA-256 round constants (FIPS 180-4). -/
def shaK : List Nat :=
  [1116352408, 1899447441, 3049323471, 3921009573, 961987163,
   1508970993, 2453635748, 2870763221, 3624381080, 310598401,
   607225278, 1426881987, 1925078388, 2162078206, 2614888103,
   3248222580, 3835390401, 4022224774, 264347078, 604807628,
   770255983, 1249150122, 1555081692, 1996064986, 2554220882,
   2821834349, 2952996808, 3210313671, 3336571891, 3584528711,
   113926993, 338241895, 666307205, 773529912, 1294757372,
   1396182291, 1695183700, 1986661051, 2177026350, 2456956037,
   2730485921, 2820302411, 3259730800, 3345764771, 3516065817,
   3600352804, 4094571909, 275423344, 430227734, 506948616,
   659060556, 883997877, 958139571, 1322822218, 1537002063,
   1747873779, 1955562222, 2024104815, 2227730452, 2361852424,
   2428436474, 2756734187, 3204031479, 3329325298]

/-- SHA-256 initial hash words (FIPS 180-4). -/
def shaH0 : List Nat :=
  [1779033703, 3144134277, 1013904242, 2773480762, 1359893119,
   2600822924, 528734635, 1541459225]

/-- SHA-256 message padding: a 0x80 byte, zeros to 56 mod 64, and the
bit length on 8 big-endian bytes. -/
def shaPad (msg : List Nat) : List Nat :=
  let L := msg.length
  let zeros := (56 + 64 - (L + 1) % 64) % 64
  msg ++ 0x80 :: List.replicate zeros 0 ++ natToBEBytes 8 (L * 8)

/-- Extend a message schedule by one word. -/
def scheduleStep (w : List Nat) : List Nat :=
  w ++ [(ssig1 (w.getD (w.length - 2) 0) + w.getD (w.length - 7) 0 +
         ssig0 (w.getD (w.length - 15) 0) + w.getD (w.length - 16) 0) % M32]

/-- Full 64-word message schedule from the 16 chunk words. -/
def buildSchedule (w16 : List Nat) : List Nat :=
  scheduleStep^[48] w16

/-- Working state of the SHA-256 compression rounds. -/
structure SHAState where
  a : Nat
  b : Nat
  c : Nat
  d : Nat
  e : Nat
  f : Nat
  g : Nat
  h : Nat

/-- One SHA-256 compression round, fed a pair of round constant and
schedule word. -/
def roundStep (st : SHAState) (kw : Nat × Nat) : SHAState :=
  let ch := (st.e &&& st.f) ^^^ ((st.e ^^^ 0xffffffff) &&& st.g)
  let maj := (st.a &&& st.b) ^^^ (st.a &&& st.c) ^^^ (st.b &&& st.c)
  let t1 := (st.h + bsig1 st.e + ch + kw.1 + kw.2) % M32
  let t2 := (bsig0 st.a + maj) % M32
  ⟨(t1 + t2) % M32, st.a, st.b, st.c, (st.d + t1) % M32, st.e, st.f, st.g⟩

/-- Compress one 64-byte chunk into the running hash words. -/
def compressChunk (hs : List Nat) (chunk : List Nat) : List Nat :=
  let w16 := (List.range 16).map (fun i => beNat ((chunk.drop (4 * i)).take 4))
  let w := buildSchedule w16
  let st0 : SHAState :=
    ⟨hs.getD 0 0, hs.getD 1 0, hs.getD 2 0, hs.getD 3 0,
     hs.getD 4 0, hs.getD 5 0, hs.getD 6 0, hs.getD 7 0⟩
  let stf := (shaK.zip w).foldl roundStep st0
  [(st0.a + stf.a) % M32, (st0.b + stf.b) % M32, (st0.c + stf.c) % M32, (st0.d + stf.d) % M32,
   (st0.e + stf.e) % M32, (st0.f + stf.f) % M32, (st0.g + stf.g) % M32, (st0.h + stf.h) % M32]

/-- Iterate the compression over all 64-byte chunks of a padded message. -/
def processChunks : List Nat → List Nat → List Nat
  | hs, [] => hs
  | hs, b :: rest => processChunks (compressChunk hs ((b :: rest).take 64)) ((b :: rest).drop 64)
termination_by _ l => l.length
decreasing_by
  simp only [List.length_drop, List.length_cons]
  omega

/-- SHA-256 over a byte list (model of Go's `crypto/sha256`, FIPS 180-4). -/
def sha256 (msg : List Nat) : List Nat :=
  (processChunks shaH0 (shaPad msg)).foldr (fun w acc => natToBEBytes 4 w ++ acc) []

/-- Embedding of `utils.DoubleSHA256` / `chainhash.DoubleHashH`:
SHA256 applied twice. -/
def doubleSHA256 (data : List Nat) : List Nat :=
  sha256 (sha256 data)

/-- One pairing level of `parser.computeMerkleRoot` (transaction.go,
lines 490-500): the `i += 2` loop hashing `left ++ right`, the trailing odd
node paired with itself. -/
def nextLevel : List (List Nat) → List (List Nat)
  | [] => []
  | [a] => [doubleSHA256 (a ++ a)]
  | a :: b :: rest => doubleSHA256 (a ++ b) :: nextLevel rest

/-- Embedding of `parser.computeMerkleRoot` (transaction.go, lines 482-503):
empty list gives the zero hash, a single hash is its own root, otherwise
recurse on the next pairing level. -/
def computeMerkleRoot : List (List Nat) → List Nat
  | [] => List.replicate 32 0
  | [h] => h
  | a :: b :: rest => computeMerkleRoot (nextLevel (a :: b :: rest))
termination_by l => l.length
decreasing_by
  have key : ∀ n (l : List (List Nat)), l.length ≤ n → (nextLevel l).length ≤ l.length := by
    intro n
    induction n with
    | zero =>
      intro l hl
      have hnil : l = [] := List.length_eq_zero.mp (Nat.le_zero.mp hl)
      subst hnil
      simp [nextLevel]
    | succ n ih =>
      intro l hl
      cases l with
      | nil => simp [nextLevel]
      | cons x t =>
        cases t with
        | nil => simp [nextLevel]
        | cons y rest2 =>
          have hr := ih rest2 (by simp only [List.length_cons] at hl; omega)
          simp only [nextLevel, List.length_cons]
          omega
  have hstep := key rest.length rest le_rfl
  simp only [nextLevel, List.length_cons]
  omega

/-- Modulus of the secp256k1 base field. -/
def secpP : Nat := 2 ^ 256 - 2 ^ 32 - 977

/-- Fast modular exponentiation (square and multiply). -/
def powMod (b e m : Nat) : Nat :=
  if h : e = 0 then 1 % m
  else
    let r := powMod (b * b % m) (e / 2) m
    if e % 2 = 1 then r * b % m else r
termination_by e
decreasing_by
  omega

/-- Model of `btcec.ParsePubKey` + `SerializeUncompressed` on a compressed
key, the external curve decompression used for undo script cases 4 and 5:
recover the y coordinate with parity `parity % 2` from the 32-byte
big-endian x coordinate, or fail when x is not the abscissa of a curve
point. -/
def decompressPubkey (parity : Nat) (xbytes : List Nat) : Option (List Nat) :=
  let x := beNat xbytes
  if secpP ≤ x then none
  else
    let ysq := (powMod x 3 secpP + 7) % secpP
    let y0 := powMod ysq ((secpP + 1) / 4) secpP
    if y0 * y0 % secpP = ysq then
      let y := if y0 % 2 = parity % 2 then y0 else secpP - y0
      some (0x04 :: (natToBEBytes 32 x ++ natToBEBytes 32 y))
    else none

/-- A prevout reconstructed from the undo file: value in satoshis and
scriptPubKey bytes (txid and vout are attached later by the caller). -/
structure PrevoutRec where
  valueSats : Int
  script : List Nat
deriving DecidableEq

/-- The script decompression switch of `parser.readUndoPrevout`
(transaction.go, lines 627-681): the script bytes selected by nSize
(0 P2PKH, 1 P2SH, 2-3 compressed P2PK, 4-5 uncompressed P2PK stored
compressed with a fallback to the compressed form when curve
decompression fails, otherwise a raw script of nSize - 6 bytes). -/
def readUndoScript (valueSats : Int) (nSize : Nat) (l4 : List Nat) :
    Option (PrevoutRec × List Nat) :=
  if nSize = 0 then
    (readBytes l4 20).map (fun p => (⟨valueSats, 0x76 :: 0xa9 :: 0x14 :: p.1 ++ [0x88, 0xac]⟩, p.2))
  else if nSize = 1 then
    (readBytes l4 20).map (fun p => (⟨valueSats, 0xa9 :: 0x14 :: p.1 ++ [0x87]⟩, p.2))
  else if nSize = 2 ∨ nSize = 3 then
    (readBytes l4 32).map (fun p => (⟨valueSats, 0x21 :: nSize :: p.1 ++ [0xac]⟩, p.2))
  else if nSize = 4 ∨ nSize = 5 then
    (readBytes l4 32).map (fun p =>
      (match decompressPubkey (nSize - 2) p.1 with
       | some unc => (⟨valueSats, 0x41 :: unc ++ [0xac]⟩ : PrevoutRec)
       | none => ⟨valueSats, 0x21 :: (nSize - 2) :: p.1 ++ [0xac]⟩, p.2))
  else
    (readBytes l4 (nSize - 6)).map (fun p => (⟨valueSats, p.1⟩, p.2))

/-- The amount and script part of `parser.readUndoPrevout`: the compressed
amount CVarInt (decompressed to satoshis) followed by the nSize CVarInt
and the script bytes it selects. -/
def readUndoAmountScript (l2 : List Nat) : Option (PrevoutRec × List Nat) :=
  (readBitcoinVarInt l2 0).bind (fun q1 =>
    (readBitcoinVarInt q1.2 0).bind (fun q2 =>
      readUndoScript (decompressAmount q1.1) q2.1 q2.2))

/-- Embedding of `parser.readUndoPrevout` (transaction.go, lines 597-689):
the nCode CVarInt, a dummy version CVarInt when the height nCode >> 1 is
positive, then the compressed amount and the nSize-selected script. -/
def readUndoPrevout (l : List Nat) : Option (PrevoutRec × List Nat) :=
  (readBitcoinVarInt l 0).bind (fun q1 =>
    if q1.1 >>> 1 > 0 then
      (readBitcoinVarInt q1.2 0).bind (fun q2 => readUndoAmountScript q2.2)
    else readUndoAmountScript q1.2)

/-- The inner loop of `parser.parseUndoFile` over one transaction: read
`count` undo prevouts in order. -/
def parsePrevoutList : Nat → List Nat → Option (List PrevoutRec × List Nat)
  | 0, l => some ([], l)
  | n + 1, l =>
    (readUndoPrevout l).bind (fun q1 =>
      (parsePrevoutList n q1.2).bind (fun q2 => some (q1.1 :: q2.1, q2.2)))

/-- The outer loop of `parser.parseUndoFile` over the matched record: for
each of the `count` transactions read its input count (CompactSize) and
then that many undo prevouts. -/
def parseAllTxUndos : Nat → List Nat → Option (List (List PrevoutRec) × List Nat)
  | 0, l => some ([], l)
  | n + 1, l =>
    (readCompactSize l).bind (fun q1 =>
      (parsePrevoutList q1.1 q1.2).bind (fun q2 =>
        (parseAllTxUndos n q2.2).bind (fun q3 => some (q2.1 :: q3.1, q3.2))))

/-- Failure cases of the undo-file decoder, mirroring the distinct error
messages of `parser.parseUndoFile`: end of file while reading the 8-byte
magic+size header of the next record (Go: no matching undo record found),
a truncated tx-undo-count CompactSize, or a truncated record body. -/
inductive UndoErr where
  | undoNotFound
  | truncatedCount
  | truncatedEntry
deriving DecidableEq

/-- Little-endian `uint32` assembly of the record size from header bytes
4 to 7, as written in `parser.parseUndoFile` (transaction.go, line 543). -/
def leUint32 (b0 b1 b2 b3 : Nat) : Nat :=
  b0 ||| (b1 <<< 8) ||| (b2 <<< 16) ||| (b3 <<< 24)

/-- Embedding of `parser.parseUndoFile` (transaction.go, lines 526-578).
The argument list is the rev-file byte stream from the current record
start; the absolute seek to `recordStart + 8 + undoSize + 32` of the
source is the `List.drop (8 + undoSize + 32)` from that record start.
A record whose leading CompactSize differs from `want` is skipped whole
and decoding retries at the next record. -/
def parseUndoFile (rest : List Nat) (want : Nat) : Except UndoErr (List (List PrevoutRec)) :=
  match h : readBytes rest 8 with
  | none => .error .undoNotFound
  | some (hdr, a1) =>
    let undoSize := leUint32 (hdr.getD 4 0) (hdr.getD 5 0) (hdr.getD 6 0) (hdr.getD 7 0)
    match readCompactSize a1 with
    | none => .error .truncatedCount
    | some (c, a2) =>
      if c = want then
        match parseAllTxUndos want a2 with
        | none => .error .truncatedEntry
        | some (ps, _) => .ok ps
      else parseUndoFile (rest.drop (8 + undoSize + 32)) want
termination_by rest.length
decreasing_by
  have h8 : 8 ≤ rest.length := by
    unfold readBytes at h
    split at h
    · assumption
    · exact absurd h (by simp)
  simp only [List.length_drop]
  omega

/-- Structured error carried by a failing block record. -/
structure ErrorInfo where
  code : String
  message : String
deriving DecidableEq

/-- The slice of the block output record that the error paths of
`parser.parseOneBlock` populate: the ok flag, the mode, the block hash
inside the header, and the error. The analytic payload of a successful
block is produced by the untranslated remainder of the analyzer and is
abstracted by the `success` continuation of `blockDispatch`. -/
structure BlockOutputM where
  ok : Bool
  mode : String
  blockHash : String
  error : Option ErrorInfo
deriving DecidableEq

/-- Embedding of the merkle-verification and undo-decoding steps of
`parser.parseOneBlock` (transaction.go, lines 364-395): a merkle root
mismatch returns the INVALID_MERKLE_ROOT record with the block hash
populated; otherwise any undo-decoder failure returns the
INVALID_UNDO_DATA record; otherwise the remaining analysis (`success`)
runs on the reconstructed prevouts. `txCount - 1` is Go's
`uint64(len(transactions) - 1)` for a block with at least one
transaction. -/
def blockDispatch (blockHash : String) (headerRoot : List Nat)
    (txHashes : List (List Nat)) (revStream : List Nat) (txCount : Nat)
    (success : List (List PrevoutRec) → BlockOutputM) : BlockOutputM :=
  if computeMerkleRoot txHashes = headerRoot then
    match parseUndoFile revStream (txCount - 1) with
    | .error _ =>
      ⟨false, "block", blockHash, some ⟨"INVALID_UNDO_DATA", "failed to parse undo data"⟩⟩
    | .ok prevouts => success prevouts
  else
    ⟨false, "block", blockHash, some ⟨"INVALID_MERKLE_ROOT", "computed merkle root does not match header"⟩⟩

/-- A block output with no error, standing in for the untranslated
successful analysis in concrete witnesses. -/
def trivialBlockOutput : BlockOutputM :=
  ⟨true, "block", "", none⟩

/-- Constant success continuation used by concrete witnesses. -/
def trivialSuccess : List (List PrevoutRec) → BlockOutputM :=
  fun _ => trivialBlockOutput

/-- Network parameter set handed to the external btcutil address
constructors. -/
inductive NetParams where
  | mainnet
  | testnet3
deriving DecidableEq

/-- Which btcutil address constructor `GetAddressFromScript` invokes. -/
inductive AddrKind where
  | pubKeyHash
  | scriptHash
  | witnessPubKeyHash
  | witnessScriptHash
  | taproot
deriving DecidableEq

/-- Embedding of `analyzer.GetAddressFromScript` (part_002, lines 761-825)
up to the external encoder boundary: the result is the btcutil
constructor invocation (constructor kind, payload slice, network
parameters); Base58Check/Bech32 encoding itself is an external
capability per the spec and is not modelled. Network parameter choice is
the source's: exactly the string mainnet selects mainnet parameters,
everything else selects testnet3 parameters. -/
def getAddressFromScript (s : List Nat) (network : String) :
    Option (AddrKind × List Nat × NetParams) :=
  let scriptType := classifyOutputScript s
  let netParams := if network = "mainnet" then NetParams.mainnet else NetParams.testnet3
  if scriptType = "p2pkh" then
    if s.length ≠ 25 then none
    else some (.pubKeyHash, (s.drop 3).take 20, netParams)
  else if scriptType = "p2sh" then
    if s.length ≠ 23 then none
    else some (.scriptHash, (s.drop 2).take 20, netParams)
  else if scriptType = "p2wpkh" then
    if s.length ≠ 22 then none
    else some (.witnessPubKeyHash, (s.drop 2).take 20, netParams)
  else if scriptType = "p2wsh" then
    if s.length ≠ 34 then none
    else some (.witnessScriptHash, (s.drop 2).take 32, netParams)
  else if scriptType = "p2tr" then
    if s.length ≠ 34 then none
    else some (.taproot, (s.drop 2).take 32, netParams)
  else none

/-- Transaction weight per BIP141 as computed in `ParseTransaction`
(transaction.go line 76): `weight = baseSize*3 + totalSize`. -/
def txWeight (baseSize totalSize : Nat) : Nat :=
  baseSize * 3 + totalSize

/-- Virtual size as computed in `ParseTransaction` (transaction.go line 77):
integer floor of `(weight + 3) / 4`. -/
def txVbytes (weight : Nat) : Nat :=
  (weight + 3) / 4

/-! Helper lemmas. -/

theorem xorBytes_length (key : List Nat) :
    ∀ (data : List Nat) (i : Nat), (xorBytes key data i).length = data.length := by
  intro data
  induction data with
  | nil => intro i; simp [xorBytes]
  | cons b rest ih => intro i; simp [xorBytes, ih]

theorem xorBytes_involutive (key : List Nat) :
    ∀ (data : List Nat) (i : Nat), xorBytes key (xorBytes key data i) i = data := by
  intro data
  induction data with
  | nil => intro i; simp [xorBytes]
  | cons b rest ih =>
    intro i
    simp only [xorBytes, List.cons.injEq]
    refine ⟨?_, ih (i + 1)⟩
    rw [Nat.xor_assoc, Nat.xor_self, Nat.xor_zero]

theorem mulPow10Wrap_eq (k : Nat) :
    ∀ n : Nat, mulPow10Wrap (n % M64) k = n * 10 ^ k % M64 := by
  induction k with
  | zero => intro n; simp [mulPow10Wrap]
  | succ k ih =>
    intro n
    have h1 : mulPow10Wrap (n % M64) (k + 1) = mulPow10Wrap (n % M64 * 10 % M64) k := rfl
    rw [h1, Nat.mod_mul_mod, ih (n * 10)]
    ring_nf

theorem readBitcoinVarInt_run (pre : List Nat) :
    ∀ (last : Nat) (rest : List Nat) (n : Nat),
      (∀ b ∈ pre, b &&& 0x80 ≠ 0) → last &&& 0x80 = 0 →
      readBitcoinVarInt (pre ++ last :: rest) n = some (cvarFold n pre last, rest) := by
  induction pre with
  | nil =>
    intro last rest n _ hlast
    simp [readBitcoinVarInt, cvarFold, cvarStep, hlast]
  | cons b pre ih =>
    intro last rest n hcont hlast
    have hb : b &&& 0x80 ≠ 0 := hcont b (by simp)
    have hpre : ∀ x ∈ pre, x &&& 0x80 ≠ 0 := fun x hx => hcont x (by simp [hx])
    simp only [List.cons_append, readBitcoinVarInt, if_neg hb, List.append_eq]
    rw [ih last rest _ hpre hlast]
    simp [cvarFold, cvarStep, List.foldl_cons]

theorem readBitcoinVarInt_none_iff :
    ∀ (l : List Nat) (n : Nat),
      readBitcoinVarInt l n = none ↔ ∀ b ∈ l, b &&& 0x80 ≠ 0 := by
  intro l
  induction l with
  | nil => intro n; simp [readBitcoinVarInt]
  | cons b rest ih =>
    intro n
    by_cases hb : b &&& 0x80 = 0
    · simp [readBitcoinVarInt, hb]
    · simp only [readBitcoinVarInt, if_neg hb]
      rw [ih]
      constructor
      · intro h x hx
        rcases List.mem_cons.mp hx with h1 | h1
        · subst h1; exact hb
        · exact h x h1
      · intro h x hx
        exact h x (List.mem_cons_of_mem b hx)

/-! Claims C2, C3, C8, C9. -/

/-- Claim C2: for every 64-bit compressed amount x, DecompressAmount
returns 0 when x = 0, and otherwise the value of the exact Bitcoin Core
closed form: with x decremented, e the last decimal digit and x shifted
by one digit, the result is ((x/9)*10 + (x mod 9) + 1) * 10^e when e < 9
and (x+1)*10^9 when e = 9, computed as Bitcoin Core does in wrap-around
64-bit arithmetic with the final int64 reinterpretation. -/
theorem claim_C2_decompressAmount (x : Nat) (hx : x < 2 ^ 64) :
    decompressAmount x =
      if x = 0 then 0
      else
        let x1 := x - 1
        let e := x1 % 10
        let x2 := x1 / 10
        if e < 9 then toInt64 ((x2 / 9 * 10 + (x2 % 9 + 1)) * 10 ^ e % M64)
        else toInt64 ((x2 + 1) * 10 ^ 9 % M64) := by
  by_cases hx0 : x = 0
  · simp [decompressAmount, hx0]
  · simp only [decompressAmount, if_neg hx0]
    by_cases he : (x - 1) % 10 < 9
    · simp only [if_pos he]
      rw [mulPow10Wrap_eq]
    · simp only [if_neg he]
      rw [mulPow10Wrap_eq]

/-- Witness for claim C2 at the concrete compressed amount 10, which
decompresses to one billion satoshis. -/
theorem claim_C2_witness :
    (10 : Nat) < 2 ^ 64 ∧ decompressAmount 10 = 1000000000 := by
  refine ⟨by norm_num, ?_⟩
  have h := claim_C2_decompressAmount 10 (by norm_num)
  simpa [toInt64, M64] using h

/-- Claim C3: ReadBitcoinVarInt decodes the undo-file CVarInt encoding:
a run of continuation bytes (top bit set) followed by a final byte (top
bit clear) decodes to the accumulator fold that shifts in the low seven
bits of every byte and adds one after each continuation byte; it fails
exactly when the stream ends mid-value (every available byte has the top
bit set); and it is distinct from ReadCompactSize, whose 0xfd/0xfe/0xff
tag bytes select 2/4/8-byte little-endian payloads while any smaller tag
byte is itself the value. -/
theorem claim_C3_readBitcoinVarInt :
    (∀ (pre : List Nat) (last : Nat) (rest : List Nat) (n : Nat),
        (∀ b ∈ pre, b &&& 0x80 ≠ 0) → last &&& 0x80 = 0 →
        readBitcoinVarInt (pre ++ last :: rest) n = some (cvarFold n pre last, rest)) ∧
    (∀ (l : List Nat) (n : Nat),
        readBitcoinVarInt l n = none ↔ ∀ b ∈ l, b &&& 0x80 ≠ 0) ∧
    (∀ rest : List Nat,
        readCompactSize (0xfd :: rest) = (readBytes rest 2).map (fun p => (leNat p.1, p.2)) ∧
        readCompactSize (0xfe :: rest) = (readBytes rest 4).map (fun p => (leNat p.1, p.2)) ∧
        readCompactSize (0xff :: rest) = (readBytes rest 8).map (fun p => (leNat p.1, p.2))) ∧
    (∀ (b : Nat) (rest : List Nat), b < 0xfd → readCompactSize (b :: rest) = some (b, rest)) ∧
    readBitcoinVarInt [0xfd, 0x01, 0x00] 0 ≠ readCompactSize [0xfd, 0x01, 0x00] := by
  refine ⟨readBitcoinVarInt_run, readBitcoinVarInt_none_iff, ?_, ?_, by decide⟩
  · intro rest
    refine ⟨?_, ?_, ?_⟩ <;> simp [readCompactSize, readBytes]
  · intro b rest hb
    have h1 : b ≠ 0xfd := by omega
    have h2 : b ≠ 0xfe := by omega
    have h3 : b ≠ 0xff := by omega
    simp [readCompactSize, readBytes, h1, h2, h3]

/-- Witness for claim C3: the two-byte CVarInt 0x82 0x01 decodes to the
fold value with empty tail, the lone continuation byte 0x80 is a stream
that ends mid-value, and the CompactSize tag byte 0x05 is its own value. -/
theorem claim_C3_witness :
    readBitcoinVarInt [0x82, 0x01] 0 = some (cvarFold 0 [0x82] 0x01, []) ∧
    readBitcoinVarInt [0x80] 0 = none ∧
    readCompactSize [0x05] = some (0x05, []) := by
  refine ⟨?_, ?_, ?_⟩
  · exact claim_C3_readBitcoinVarInt.1 [0x82] 0x01 [] 0 (by decide) (by decide)
  · exact (claim_C3_readBitcoinVarInt.2.1 [0x80] 0).mpr (by decide)
  · exact claim_C3_readBitcoinVarInt.2.2.2.1 0x05 [] (by decide)

/-- Claim C8: for every parsed transaction, weight is three times the
stripped base size plus the total size, vbytes is the integer floor of
(weight + 3) / 4, and vbytes is within one of the exact ceiling of
weight / 4 (they are in fact equal). -/
theorem claim_C8_weight_vbytes (baseSize totalSize : Nat) :
    txWeight baseSize totalSize = baseSize * 3 + totalSize ∧
    txVbytes (txWeight baseSize totalSize) = (txWeight baseSize totalSize + 3) / 4 ∧
    |(txVbytes (txWeight baseSize totalSize) : ℤ) -
        ⌈(txWeight baseSize totalSize : ℚ) / 4⌉| ≤ 1 := by
  refine ⟨rfl, rfl, ?_⟩
  have hceil : ∀ w : Nat, (((w + 3) / 4 : Nat) : ℤ) = ⌈(w : ℚ) / 4⌉ := by
    intro w
    set q := (w + 3) / 4 with hq
    have h1 : w ≤ 4 * q := by omega
    have h2 : 4 * q ≤ w + 3 := by omega
    have h1q : (w : ℚ) ≤ 4 * (q : ℚ) := by exact_mod_cast h1
    have h2q : 4 * (q : ℚ) ≤ (w : ℚ) + 3 := by exact_mod_cast h2
    symm
    rw [Int.ceil_eq_iff]
    constructor
    · push_cast
      rw [lt_div_iff₀ (by norm_num : (0:ℚ) < 4)]
      linarith
    · rw [div_le_iff₀ (by norm_num : (0:ℚ) < 4)]
      push_cast
      linarith
  rw [show txVbytes (txWeight baseSize totalSize) = (txWeight baseSize totalSize + 3) / 4 from rfl]
  rw [hceil (txWeight baseSize totalSize)]
  simp

/-- Claim C9: XOR decoding is a length-preserving involution, for every
data byte sequence and every key, including the empty and all-zero keys. -/
theorem claim_C9_xor_involution (data key : List Nat) :
    (xorDecode data key).length = data.length ∧
    xorDecode (xorDecode data key) key = data := by
  by_cases h1 : key.length = 0
  · simp [xorDecode, h1]
  · by_cases h2 : key.all (fun b => b = 0)
    · simp [xorDecode, h1, h2]
    · simp [xorDecode, h1, h2, xorBytes_length, xorBytes_involutive]

theorem getD_six_ten_pos {s : List Nat} (hs : s.getD 0 0 = 0x6a) : 0 < s.length := by
  cases s with
  | nil => simp [List.getD] at hs
  | cons b rest => simp

theorem classify_spec_cases (s : List Nat) :
    (classifyOutputScript s = "p2pkh" ↔
      s.length = 25 ∧ s.getD 0 0 = 0x76 ∧ s.getD 1 0 = 0xa9 ∧ s.getD 2 0 = 0x14 ∧
        s.getD 23 0 = 0x88 ∧ s.getD 24 0 = 0xac) ∧
    (classifyOutputScript s = "p2sh" ↔
      s.length = 23 ∧ s.getD 0 0 = 0xa9 ∧ s.getD 1 0 = 0x14 ∧ s.getD 22 0 = 0x87) ∧
    (classifyOutputScript s = "p2wpkh" ↔
      s.length = 22 ∧ s.getD 0 0 = 0x00 ∧ s.getD 1 0 = 0x14) ∧
    (classifyOutputScript s = "p2wsh" ↔
      s.length = 34 ∧ s.getD 0 0 = 0x00 ∧ s.getD 1 0 = 0x20) ∧
    (classifyOutputScript s = "p2tr" ↔
      s.length = 34 ∧ s.getD 0 0 = 0x51 ∧ s.getD 1 0 = 0x20) ∧
    (classifyOutputScript s = "op_return" ↔ s.getD 0 0 = 0x6a) ∧
    (classifyOutputScript s = "unknown" ↔
      ¬((s.length = 25 ∧ s.getD 0 0 = 0x76 ∧ s.getD 1 0 = 0xa9 ∧ s.getD 2 0 = 0x14 ∧
          s.getD 23 0 = 0x88 ∧ s.getD 24 0 = 0xac) ∨
        (s.length = 23 ∧ s.getD 0 0 = 0xa9 ∧ s.getD 1 0 = 0x14 ∧ s.getD 22 0 = 0x87) ∨
        (s.length = 22 ∧ s.getD 0 0 = 0x00 ∧ s.getD 1 0 = 0x14) ∨
        (s.length = 34 ∧ s.getD 0 0 = 0x00 ∧ s.getD 1 0 = 0x20) ∨
        (s.length = 34 ∧ s.getD 0 0 = 0x51 ∧ s.getD 1 0 = 0x20) ∨
        s.getD 0 0 = 0x6a)) := by
  unfold classifyOutputScript
  split_ifs with h0 h1 h2 h3 h4 h5 h6
  · have hnil : s = [] := List.length_eq_zero.mp h0
    subst hnil
    simp
  · obtain ⟨e1, e2, e3, e4, e5, e6⟩ := h1
    refine ⟨?_, ?_, ?_, ?_, ?_, ?_, ?_⟩ <;> simp_all
  · obtain ⟨e1, e2, e3, e4⟩ := h2
    refine ⟨?_, ?_, ?_, ?_, ?_, ?_, ?_⟩ <;> simp_all
  · obtain ⟨e1, e2, e3⟩ := h3
    refine ⟨?_, ?_, ?_, ?_, ?_, ?_, ?_⟩ <;> simp_all
  · obtain ⟨e1, e2, e3⟩ := h4
    refine ⟨?_, ?_, ?_, ?_, ?_, ?_, ?_⟩ <;> simp_all
  · obtain ⟨e1, e2, e3⟩ := h5
    refine ⟨?_, ?_, ?_, ?_, ?_, ?_, ?_⟩ <;> simp_all
  · obtain ⟨e1, e2⟩ := h6
    refine ⟨?_, ?_, ?_, ?_, ?_, ?_, ?_⟩ <;> simp_all
  · refine ⟨?_, ?_, ?_, ?_, ?_, ?_, ?_⟩ <;> simp_all
    all_goals
      intro hc
      have hpos : 0 < s.length := List.length_pos.mpr h0
      rw [List.getElem?_eq_getElem hpos] at hc
      exact h6 hpos (by simpa using hc)

/-- Claim C6: output-script classification returns exactly the spec
templates: p2pkh iff 25 bytes matching 76 a9 14 .. 88 ac, p2sh iff 23
bytes matching a9 14 .. 87, p2wpkh iff 22 bytes starting 00 14, p2wsh
iff 34 bytes starting 00 20, p2tr iff 34 bytes starting 51 20,
op_return iff the first byte is 6a (no earlier template can match such a
script, so the guard is equivalent to the first-byte test alone), and
unknown otherwise. -/
theorem claim_C6_classifyOutputScript (s : List Nat) :
    (classifyOutputScript s = "p2pkh" ↔
      s.length = 25 ∧ s.getD 0 0 = 0x76 ∧ s.getD 1 0 = 0xa9 ∧ s.getD 2 0 = 0x14 ∧
        s.getD 23 0 = 0x88 ∧ s.getD 24 0 = 0xac) ∧
    (classifyOutputScript s = "p2sh" ↔
      s.length = 23 ∧ s.getD 0 0 = 0xa9 ∧ s.getD 1 0 = 0x14 ∧ s.getD 22 0 = 0x87) ∧
    (classifyOutputScript s = "p2wpkh" ↔
      s.length = 22 ∧ s.getD 0 0 = 0x00 ∧ s.getD 1 0 = 0x14) ∧
    (classifyOutputScript s = "p2wsh" ↔
      s.length = 34 ∧ s.getD 0 0 = 0x00 ∧ s.getD 1 0 = 0x20) ∧
    (classifyOutputScript s = "p2tr" ↔
      s.length = 34 ∧ s.getD 0 0 = 0x51 ∧ s.getD 1 0 = 0x20) ∧
    (classifyOutputScript s = "op_return" ↔ s.getD 0 0 = 0x6a) ∧
    (classifyOutputScript s = "unknown" ↔
      ¬((s.length = 25 ∧ s.getD 0 0 = 0x76 ∧ s.getD 1 0 = 0xa9 ∧ s.getD 2 0 = 0x14 ∧
          s.getD 23 0 = 0x88 ∧ s.getD 24 0 = 0xac) ∨
        (s.length = 23 ∧ s.getD 0 0 = 0xa9 ∧ s.getD 1 0 = 0x14 ∧ s.getD 22 0 = 0x87) ∨
        (s.length = 22 ∧ s.getD 0 0 = 0x00 ∧ s.getD 1 0 = 0x14) ∨
        (s.length = 34 ∧ s.getD 0 0 = 0x00 ∧ s.getD 1 0 = 0x20) ∨
        (s.length = 34 ∧ s.getD 0 0 = 0x51 ∧ s.getD 1 0 = 0x20) ∨
        s.getD 0 0 = 0x6a)) :=
  classify_spec_cases s

theorem sublist_ite_cons (c : Prop) [Decidable c] (a : String) (xs L : List String)
    (h : xs.Sublist L) : ((if c then [a] else []) ++ xs).Sublist (a :: L) := by
  split
  · simpa using h.cons₂ a
  · simpa using h.cons a

/-- Claim C7: warnings contain HIGH_FEE iff the fee exceeds one million
satoshis or the fee rate exceeds 200 sat/vB, DUST_OUTPUT iff some
non-op_return output is below 546 satoshis, UNKNOWN_OUTPUT_SCRIPT iff
some output classifies as unknown, RBF_SIGNALING iff the RBF flag is
set, and the list is a sublist of the fixed enumeration order HIGH_FEE,
DUST_OUTPUT, UNKNOWN_OUTPUT_SCRIPT, RBF_SIGNALING. -/
theorem claim_C7_warnings (feeSats : Int) (feeRate : ℚ) (rbfSignaling : Bool)
    (outputs : List OutputRec) :
    ("HIGH_FEE" ∈ generateWarnings feeSats feeRate rbfSignaling outputs ↔
        feeSats > 1000000 ∨ feeRate > 200) ∧
    ("DUST_OUTPUT" ∈ generateWarnings feeSats feeRate rbfSignaling outputs ↔
        ∃ o ∈ outputs, o.scriptType ≠ "op_return" ∧ o.valueSats < 546) ∧
    ("UNKNOWN_OUTPUT_SCRIPT" ∈ generateWarnings feeSats feeRate rbfSignaling outputs ↔
        ∃ o ∈ outputs, o.scriptType = "unknown") ∧
    ("RBF_SIGNALING" ∈ generateWarnings feeSats feeRate rbfSignaling outputs ↔
        rbfSignaling = true) ∧
    (generateWarnings feeSats feeRate rbfSignaling outputs).Sublist
      ["HIGH_FEE", "DUST_OUTPUT", "UNKNOWN_OUTPUT_SCRIPT", "RBF_SIGNALING"] := by
  refine ⟨?_, ?_, ?_, ?_, ?_⟩
  · unfold generateWarnings
    split_ifs <;> simp_all
  · unfold generateWarnings
    split_ifs <;> simp_all
  · unfold generateWarnings
    split_ifs <;> simp_all
  · unfold generateWarnings
    split_ifs <;> simp_all
  · unfold generateWarnings
    rw [List.append_assoc, List.append_assoc]
    refine sublist_ite_cons _ _ _ _ (sublist_ite_cons _ _ _ _ (sublist_ite_cons _ _ _ _ ?_))
    split
    · exact List.Sublist.refl _
    · exact List.nil_sublist _

/-- Claim C10: address derivation treats every network string other than
exactly mainnet as testnet: for every scriptPubKey whose classification
is an address-bearing type, GetAddressFromScript produces an address
constructor invocation with the testnet3 parameters whenever the network
tag differs from mainnet, rather than rejecting the tag. -/
theorem claim_C10_address (s : List Nat) (network : String) (hnet : network ≠ "mainnet")
    (haddr : classifyOutputScript s ∈ ["p2pkh", "p2sh", "p2wpkh", "p2wsh", "p2tr"]) :
    ∃ kind payload, getAddressFromScript s network = some (kind, payload, NetParams.testnet3) := by
  have hspec := classify_spec_cases s
  simp only [List.mem_cons, List.not_mem_nil, or_false] at haddr
  rcases haddr with hc | hc | hc | hc | hc
  · have hlen : s.length = 25 := (hspec.1.mp hc).1
    exact ⟨.pubKeyHash, (s.drop 3).take 20, by simp [getAddressFromScript, hc, hlen, hnet]⟩
  · have hlen : s.length = 23 := (hspec.2.1.mp hc).1
    exact ⟨.scriptHash, (s.drop 2).take 20, by simp [getAddressFromScript, hc, hlen, hnet]⟩
  · have hlen : s.length = 22 := (hspec.2.2.1.mp hc).1
    exact ⟨.witnessPubKeyHash, (s.drop 2).take 20, by simp [getAddressFromScript, hc, hlen, hnet]⟩
  · have hlen : s.length = 34 := (hspec.2.2.2.1.mp hc).1
    exact ⟨.witnessScriptHash, (s.drop 2).take 32, by simp [getAddressFromScript, hc, hlen, hnet]⟩
  · have hlen : s.length = 34 := (hspec.2.2.2.2.1.mp hc).1
    exact ⟨.taproot, (s.drop 2).take 32, by simp [getAddressFromScript, hc, hlen, hnet]⟩

/-- Witness for claim C10: a canonical 25-byte p2pkh scriptPubKey with the
network tag testnet derives an address with the testnet3 parameters. -/
theorem claim_C10_witness :
    ("testnet" : String) ≠ "mainnet" ∧
    classifyOutputScript (0x76 :: 0xa9 :: 0x14 :: (List.replicate 20 0 ++ [0x88, 0xac])) ∈
      ["p2pkh", "p2sh", "p2wpkh", "p2wsh", "p2tr"] ∧
    ∃ kind payload,
      getAddressFromScript (0x76 :: 0xa9 :: 0x14 :: (List.replicate 20 0 ++ [0x88, 0xac]))
        "testnet" = some (kind, payload, NetParams.testnet3) :=
  ⟨by decide, by decide, claim_C10_address _ _ (by decide) (by decide)⟩

/-! Extension lemmas: a reader that succeeds on a stream succeeds on any
extension of that stream, consuming the same prefix. They express that the
decoders never look past the bytes they consume. -/

theorem readBytes_extend {l : List Nat} {n : Nat} {v r : List Nat} (t : List Nat)
    (h : readBytes l n = some (v, r)) : readBytes (l ++ t) n = some (v, r ++ t) := by
  unfold readBytes at h ⊢
  split at h
  case isTrue hle =>
    simp only [Option.some.injEq, Prod.mk.injEq] at h
    obtain ⟨hv, hr⟩ := h
    subst hv
    subst hr
    rw [if_pos (le_trans hle (by simp))]
    rw [List.take_append_of_le_length hle, List.drop_append_of_le_length hle]
  case isFalse => exact absurd h (by simp)

theorem readBytesMap_extend {α : Type} (f : List Nat → α) {k : Nat} {l : List Nat}
    {v : α} {r : List Nat} (t : List Nat)
    (h : (readBytes l k).map (fun q => (f q.1, q.2)) = some (v, r)) :
    (readBytes (l ++ t) k).map (fun q => (f q.1, q.2)) = some (v, r ++ t) := by
  cases hrb : readBytes l k with
  | none => rw [hrb] at h; simp at h
  | some q =>
    obtain ⟨w, rr⟩ := q
    rw [hrb] at h
    rw [readBytes_extend t hrb]
    simp_all

theorem readCompactSize_extend {l : List Nat} {v : Nat} {r : List Nat} (t : List Nat)
    (h : readCompactSize l = some (v, r)) : readCompactSize (l ++ t) = some (v, r ++ t) := by
  cases l with
  | nil =>
    have hnil : readCompactSize [] = none := rfl
    rw [hnil] at h
    exact Option.noConfusion h
  | cons b rest =>
    have hb : readBytes (b :: rest) 1 = some ([b], rest) := by
      simp [readBytes]
    have hb2 : readBytes ((b :: rest) ++ t) 1 = some ([b], rest ++ t) := readBytes_extend t hb
    rw [readCompactSize] at h
    rw [readCompactSize, hb2]
    rw [hb] at h
    simp only [List.headD_cons] at h ⊢
    split_ifs at h ⊢ with h1 h2 h3
    · exact readBytesMap_extend leNat t h
    · exact readBytesMap_extend leNat t h
    · exact readBytesMap_extend leNat t h
    · simp only [Option.some.injEq, Prod.mk.injEq] at h
      obtain ⟨hv, hr⟩ := h
      subst hv
      subst hr
      rfl

theorem readBitcoinVarInt_extend :
    ∀ {l : List Nat} {n v : Nat} {r : List Nat} (t : List Nat),
      readBitcoinVarInt l n = some (v, r) → readBitcoinVarInt (l ++ t) n = some (v, r ++ t) := by
  intro l
  induction l with
  | nil => intro n v r t h; simp [readBitcoinVarInt] at h
  | cons b rest ih =>
    intro n v r t h
    by_cases hb : b &&& 0x80 = 0
    · simp only [readBitcoinVarInt, if_pos hb, Option.some.injEq, Prod.mk.injEq] at h
      obtain ⟨h1, h2⟩ := h
      subst h1
      subst h2
      simp [readBitcoinVarInt, hb]
    · simp only [List.cons_append, readBitcoinVarInt, if_neg hb, List.append_eq] at h ⊢
      exact ih t h

theorem readUndoScript_extend {valueSats : Int} {nSize : Nat} {l : List Nat}
    {p : PrevoutRec} {r : List Nat} (t : List Nat)
    (h : readUndoScript valueSats nSize l = some (p, r)) :
    readUndoScript valueSats nSize (l ++ t) = some (p, r ++ t) := by
  unfold readUndoScript at h ⊢
  split_ifs at h ⊢
  · exact readBytesMap_extend
      (fun bs => (⟨valueSats, 0x76 :: 0xa9 :: 0x14 :: bs ++ [0x88, 0xac]⟩ : PrevoutRec)) t h
  · exact readBytesMap_extend
      (fun bs => (⟨valueSats, 0xa9 :: 0x14 :: bs ++ [0x87]⟩ : PrevoutRec)) t h
  · exact readBytesMap_extend
      (fun bs => (⟨valueSats, 0x21 :: nSize :: bs ++ [0xac]⟩ : PrevoutRec)) t h
  · exact readBytesMap_extend
      (fun bs =>
        match decompressPubkey (nSize - 2) bs with
        | some unc => (⟨valueSats, 0x41 :: unc ++ [0xac]⟩ : PrevoutRec)
        | none => (⟨valueSats, 0x21 :: (nSize - 2) :: bs ++ [0xac]⟩ : PrevoutRec)) t h
  · exact readBytesMap_extend (fun bs => (⟨valueSats, bs⟩ : PrevoutRec)) t h

theorem readUndoAmountScript_extend {l : List Nat} {p : PrevoutRec} {r : List Nat} (t : List Nat)
    (h : readUndoAmountScript l = some (p, r)) :
    readUndoAmountScript (l ++ t) = some (p, r ++ t) := by
  unfold readUndoAmountScript at h ⊢
  cases h1 : readBitcoinVarInt l 0 with
  | none => rw [h1] at h; simp at h
  | some q1 =>
    obtain ⟨amt, l3⟩ := q1
    rw [h1] at h
    rw [readBitcoinVarInt_extend t h1]
    simp only [Option.some_bind] at h ⊢
    cases h2 : readBitcoinVarInt l3 0 with
    | none => rw [h2] at h; simp at h
    | some q2 =>
      obtain ⟨nSize, l4⟩ := q2
      rw [h2] at h
      rw [readBitcoinVarInt_extend t h2]
      simp only [Option.some_bind] at h ⊢
      exact readUndoScript_extend t h

theorem readUndoPrevout_extend {l : List Nat} {p : PrevoutRec} {r : List Nat} (t : List Nat)
    (h : readUndoPrevout l = some (p, r)) : readUndoPrevout (l ++ t) = some (p, r ++ t) := by
  unfold readUndoPrevout at h ⊢
  cases h1 : readBitcoinVarInt l 0 with
  | none => rw [h1] at h; simp at h
  | some q1 =>
    obtain ⟨nCode, l1⟩ := q1
    rw [h1] at h
    rw [readBitcoinVarInt_extend t h1]
    simp only [Option.some_bind] at h ⊢
    split_ifs at h ⊢ with hd
    · cases h2 : readBitcoinVarInt l1 0 with
      | none => rw [h2] at h; simp at h
      | some q2 =>
        obtain ⟨d, l2⟩ := q2
        rw [h2] at h
        rw [readBitcoinVarInt_extend t h2]
        simp only [Option.some_bind] at h ⊢
        exact readUndoAmountScript_extend t h
    · exact readUndoAmountScript_extend t h

theorem parsePrevoutList_extend :
    ∀ {n : Nat} {l : List Nat} {ps : List PrevoutRec} {r : List Nat} (t : List Nat),
      parsePrevoutList n l = some (ps, r) →
      parsePrevoutList n (l ++ t) = some (ps, r ++ t) := by
  intro n
  induction n with
  | zero =>
    intro l ps r t h
    simp only [parsePrevoutList, Option.some.injEq, Prod.mk.injEq] at h
    obtain ⟨h1, h2⟩ := h
    subst h1
    subst h2
    rfl
  | succ n ih =>
    intro l ps r t h
    simp only [parsePrevoutList] at h ⊢
    cases h1 : readUndoPrevout l with
    | none => rw [h1] at h; simp at h
    | some q1 =>
      obtain ⟨p, r1⟩ := q1
      rw [h1] at h
      rw [readUndoPrevout_extend t h1]
      simp only [Option.some_bind] at h ⊢
      cases h2 : parsePrevoutList n r1 with
      | none => rw [h2] at h; simp at h
      | some q2 =>
        obtain ⟨ps2, r2⟩ := q2
        rw [h2] at h
        rw [ih t h2]
        simp only [Option.some_bind, Option.some.injEq, Prod.mk.injEq] at h ⊢
        obtain ⟨h4, h5⟩ := h
        subst h4
        subst h5
        exact ⟨rfl, rfl⟩

theorem parseAllTxUndos_extend :
    ∀ {n : Nat} {l : List Nat} {ps : List (List PrevoutRec)} {r : List Nat} (t : List Nat),
      parseAllTxUndos n l = some (ps, r) →
      parseAllTxUndos n (l ++ t) = some (ps, r ++ t) := by
  intro n
  induction n with
  | zero =>
    intro l ps r t h
    simp only [parseAllTxUndos, Option.some.injEq, Prod.mk.injEq] at h
    obtain ⟨h1, h2⟩ := h
    subst h1
    subst h2
    rfl
  | succ n ih =>
    intro l ps r t h
    simp only [parseAllTxUndos] at h ⊢
    cases h1 : readCompactSize l with
    | none => rw [h1] at h; simp at h
    | some q1 =>
      obtain ⟨c, r1⟩ := q1
      rw [h1] at h
      rw [readCompactSize_extend t h1]
      simp only [Option.some_bind] at h ⊢
      cases h2 : parsePrevoutList c r1 with
      | none => rw [h2] at h; simp at h
      | some q2 =>
        obtain ⟨ps1, r2⟩ := q2
        rw [h2] at h
        rw [parsePrevoutList_extend t h2]
        simp only [Option.some_bind] at h ⊢
        cases h3 : parseAllTxUndos n r2 with
        | none => rw [h3] at h; simp at h
        | some q3 =>
          obtain ⟨ps2, r3⟩ := q3
          rw [h3] at h
          rw [ih t h3]
          simp only [Option.some_bind, Option.some.injEq, Prod.mk.injEq] at h ⊢
          obtain ⟨h4, h5⟩ := h
          subst h4
          subst h5
          exact ⟨rfl, rfl⟩

/-- Claim C4: whenever the undo record at the current position has a
leading num_tx_undos CompactSize different from the required count, the
decoder skips the whole record by seeking to record start + 8 +
record size + 32 and retries there (first conjunct); and a matching
record is parsed without reading the trailing 32-byte hash: the result
is the same for every choice of the 32 hash bytes and of everything
after them (second conjunct), so the hash is never read or verified
before a matching record is parsed. -/
theorem claim_C4_undo_skip :
    (∀ (rest : List Nat) (want : Nat) (hdr a1 : List Nat) (c : Nat) (a2 : List Nat),
        readBytes rest 8 = some (hdr, a1) →
        readCompactSize a1 = some (c, a2) →
        c ≠ want →
        parseUndoFile rest want =
          parseUndoFile
            (rest.drop
              (8 + leUint32 (hdr.getD 4 0) (hdr.getD 5 0) (hdr.getD 6 0) (hdr.getD 7 0) + 32))
            want) ∧
    (∀ (want : Nat) (hdrBytes countBytes body hash sfx : List Nat)
        (ps : List (List PrevoutRec)),
        hdrBytes.length = 8 →
        readCompactSize countBytes = some (want, []) →
        parseAllTxUndos want body = some (ps, []) →
        parseUndoFile (hdrBytes ++ (countBytes ++ (body ++ (hash ++ sfx)))) want = .ok ps) := by
  constructor
  · intro rest want hdr a1 c a2 h1 h2 hne
    rw [parseUndoFile.eq_def]
    split
    · rename_i heq
      rw [h1] at heq
      exact Option.noConfusion heq
    · rename_i hdr2 a12 heq
      rw [h1] at heq
      injection heq with h3
      injection h3 with h4 h5
      subst h4
      subst h5
      split
      · rename_i heq2
        rw [h2] at heq2
        exact Option.noConfusion heq2
      · rename_i c2 a22 heq2
        rw [h2] at heq2
        injection heq2 with h6
        injection h6 with h7 h9
        subst h7
        subst h9
        rw [if_neg hne]
  · intro want hdrBytes countBytes body hash sfx ps h8 hcount hbody
    have htake : (hdrBytes ++ (countBytes ++ (body ++ (hash ++ sfx)))).take 8 = hdrBytes := by
      rw [← h8]
      exact List.take_left _ _
    have hdrop : (hdrBytes ++ (countBytes ++ (body ++ (hash ++ sfx)))).drop 8 =
        countBytes ++ (body ++ (hash ++ sfx)) := by
      rw [← h8]
      exact List.drop_left _ _
    have hrb : readBytes (hdrBytes ++ (countBytes ++ (body ++ (hash ++ sfx)))) 8 =
        some (hdrBytes, countBytes ++ (body ++ (hash ++ sfx))) := by
      unfold readBytes
      rw [if_pos (by simp [← h8])]
      rw [htake, hdrop]
    have hcs : readCompactSize (countBytes ++ (body ++ (hash ++ sfx))) =
        some (want, body ++ (hash ++ sfx)) := by
      have hx := readCompactSize_extend (body ++ (hash ++ sfx)) hcount
      simpa using hx
    have hpa : parseAllTxUndos want (body ++ (hash ++ sfx)) = some (ps, hash ++ sfx) := by
      have hx := parseAllTxUndos_extend (hash ++ sfx) hbody
      simpa using hx
    rw [parseUndoFile.eq_def]
    split
    · rename_i heq
      rw [hrb] at heq
      exact Option.noConfusion heq
    · rename_i hdr2 a12 heq
      rw [hrb] at heq
      injection heq with h3
      injection h3 with h4 h5
      subst h4
      subst h5
      split
      · rename_i heq2
        rw [hcs] at heq2
        exact Option.noConfusion heq2
      · rename_i c2 a22 heq2
        rw [hcs] at heq2
        injection heq2 with h6
        injection h6 with h7 h9
        subst h7
        subst h9
        rw [if_pos rfl]
        split
        · rename_i heq3
          rw [hpa] at heq3
          exact Option.noConfusion heq3
        · rename_i ps2 r3 heq3
          rw [hpa] at heq3
          injection heq3 with h10
          injection h10 with h11 h12
          subst h11
          rfl

/-- Witness for claim C4: a record with size field zero and mismatched
count 5 is skipped by exactly 8 + 0 + 32 bytes from its start, and a
matching empty record (count 0 for a one-transaction block) parses to
the empty prevout list for an arbitrary trailing 32-byte hash. -/
theorem claim_C4_witness :
    parseUndoFile [9, 9, 9, 9, 0, 0, 0, 0, 5] 1 =
      parseUndoFile
        (([9, 9, 9, 9, 0, 0, 0, 0, 5] : List Nat).drop
          (8 + leUint32 (([9, 9, 9, 9, 0, 0, 0, 0] : List Nat).getD 4 0)
            (([9, 9, 9, 9, 0, 0, 0, 0] : List Nat).getD 5 0)
            (([9, 9, 9, 9, 0, 0, 0, 0] : List Nat).getD 6 0)
            (([9, 9, 9, 9, 0, 0, 0, 0] : List Nat).getD 7 0) + 32))
        1 ∧
    parseUndoFile ([0, 0, 0, 0, 0, 0, 0, 0] ++ ([0] ++ ([] ++ (List.replicate 32 7 ++ [])))) 0 =
      .ok [] :=
  ⟨claim_C4_undo_skip.1 [9, 9, 9, 9, 0, 0, 0, 0, 5] 1 [9, 9, 9, 9, 0, 0, 0, 0] [5] 5 []
      (by decide) (by decide) (by decide),
   claim_C4_undo_skip.2 0 [0, 0, 0, 0, 0, 0, 0, 0] [0] [] (List.replicate 32 7) [] []
      (by decide) (by decide) (by decide)⟩

/-- Claim C5: the analyzer recomputes the Merkle root bottom-up by
double-SHA256 of left ++ right at each level, pairing an odd trailing
node with itself (shown here by the closed forms for two and three
leaves), and on a mismatch with the header root it returns the record
with ok false, error code INVALID_MERKLE_ROOT and the block hash
populated, without consuming the undo stream or running the remaining
analysis. -/
theorem claim_C5_merkle (blockHash : String) (headerRoot : List Nat)
    (txHashes : List (List Nat)) (revStream : List Nat) (txCount : Nat)
    (success : List (List PrevoutRec) → BlockOutputM)
    (hmismatch : computeMerkleRoot txHashes ≠ headerRoot) :
    (∀ a b : List Nat, computeMerkleRoot [a, b] = doubleSHA256 (a ++ b)) ∧
    (∀ a b c : List Nat, computeMerkleRoot [a, b, c] =
        doubleSHA256 (doubleSHA256 (a ++ b) ++ doubleSHA256 (c ++ c))) ∧
    blockDispatch blockHash headerRoot txHashes revStream txCount success =
      ⟨false, "block", blockHash,
        some ⟨"INVALID_MERKLE_ROOT", "computed merkle root does not match header"⟩⟩ := by
  refine ⟨?_, ?_, ?_⟩
  · intro a b
    simp [computeMerkleRoot, nextLevel]
  · intro a b c
    simp [computeMerkleRoot, nextLevel]
  · unfold blockDispatch
    rw [if_neg hmismatch]

/-- Witness for claim C5: a one-transaction block whose header root [2]
differs from the single hash [1] yields the INVALID_MERKLE_ROOT error
record carrying the block hash. -/
theorem claim_C5_witness :
    computeMerkleRoot [[1]] ≠ [2] ∧
    blockDispatch "00" [2] [[1]] [] 1 trivialSuccess =
      ⟨false, "block", "00",
        some ⟨"INVALID_MERKLE_ROOT", "computed merkle root does not match header"⟩⟩ := by
  have hm : computeMerkleRoot [[1]] = [1] := by simp [computeMerkleRoot]
  have hne : computeMerkleRoot [[1]] ≠ [2] := by
    rw [hm]
    decide
  exact ⟨hne, (claim_C5_merkle "00" [2] [[1]] [] 1 trivialSuccess hne).2.2⟩

/-- Counterexample to claim C1 as stated: on the concrete one-transaction
block (single hash [0], matching header root) paired with an empty rev
stream, the undo decoder does reach end of file before any matching
record, but the block analysis reports error code INVALID_UNDO_DATA,
not UNDO_NOT_FOUND. -/
theorem claim_C1_counterexample :
    parseUndoFile [] 1 = .error .undoNotFound ∧
    (blockDispatch "00" [0] [[0]] [] 2 trivialSuccess).error =
      some ⟨"INVALID_UNDO_DATA", "failed to parse undo data"⟩ ∧
    ("INVALID_UNDO_DATA" : String) ≠ "UNDO_NOT_FOUND" := by
  have hu : parseUndoFile [] 1 = .error .undoNotFound := by
    rw [parseUndoFile.eq_def]
    split
    · rfl
    · rename_i hdr a1 heq
      simp [readBytes] at heq
  have hm : computeMerkleRoot [[0]] = [0] := by simp [computeMerkleRoot]
  refine ⟨hu, ?_, by decide⟩
  unfold blockDispatch
  rw [if_pos hm]
  have h21 : (2 : Nat) - 1 = 1 := rfl
  rw [h21, hu]

/-- Claim C1 as amended: when the undo decoder reaches end of file in the
rev stream before finding a record whose leading CompactSize equals
tx_count - 1 (it then fails with its not-found error), the block
analysis reports the error code INVALID_UNDO_DATA, wrapping that
failure; the code UNDO_NOT_FOUND is never produced. -/
theorem claim_C1_undo_error_code (blockHash : String) (headerRoot : List Nat)
    (txHashes : List (List Nat)) (revStream : List Nat) (txCount : Nat)
    (success : List (List PrevoutRec) → BlockOutputM)
    (hmerkle : computeMerkleRoot txHashes = headerRoot)
    (hundo : parseUndoFile revStream (txCount - 1) = .error .undoNotFound) :
    blockDispatch blockHash headerRoot txHashes revStream txCount success =
      ⟨false, "block", blockHash,
        some ⟨"INVALID_UNDO_DATA", "failed to parse undo data"⟩⟩ := by
  unfold blockDispatch
  rw [if_pos hmerkle, hundo]

/-- Witness for the amended claim C1 at the concrete input of its
counterexample: matching merkle root, empty rev stream, two
transactions. -/
theorem claim_C1_witness :
    blockDispatch "00" [0] [[0]] [] 2 trivialSuccess =
      ⟨false, "block", "00",
        some ⟨"INVALID_UNDO_DATA", "failed to parse undo data"⟩⟩ := by
  have hu : parseUndoFile [] ((2 : Nat) - 1) = .error .undoNotFound := by
    rw [parseUndoFile.eq_def]
    split
    · rfl
    · rename_i hdr a1 heq
      simp [readBytes] at heq
  exact claim_C1_undo_error_code "00" [0] [[0]] [] 2 trivialSuccess
    (by simp [computeMerkleRoot]) hu

end BTCLens
